import Mathlib

/-
  Verification of the Kariba MOISMCTS engine (kariba_moismcts.py).

  The Python source is shallowly embedded: numpy integer count-vectors become
  `List ℤ` with pointwise operations, the `Kariba` game object becomes a
  structure passed functionally, dictionaries keyed by player name become
  association lists in `player_names` order (Python dicts preserve insertion
  order), and every use of `np.random` / `random` is driven by an explicit
  oracle stream of naturals.  Exceptions that the Python code can raise
  (KeyError, AttributeError, ValueError from `np.random.choice`, TypeError
  from `len(None)`) are modelled with `Except` / `Option` results.
-/

deriving instance DecidableEq for Except

namespace Kariba

/-- Pointwise addition of two integer count-vectors (numpy `+` on
same-length arrays). -/
def vadd (a b : List ℤ) : List ℤ := List.zipWith (· + ·) a b

/-- Pointwise subtraction of two integer count-vectors (numpy `-`). -/
def vsub (a b : List ℤ) : List ℤ := List.zipWith (· - ·) a b

/-- Sum of the entries of a count-vector (`np.sum`). -/
def vsum (a : List ℤ) : ℤ := a.sum

/-- Scalar multiple of a count-vector (numpy `n * v`). -/
def smulV (n : ℤ) (a : List ℤ) : List ℤ := a.map (n * ·)

/-- Modelled from the spec: `util.one_hot(idx, n_dim)` is not under `src/`;
the spec lists one-hot construction over species indices among the
vector-arithmetic collaborators.  Entry `idx` is 1, all others 0. -/
def oneHot (idx n_dim : ℕ) : List ℤ :=
  (List.range n_dim).map (fun i => if i = idx then 1 else 0)

/-- The all-zeros count-vector (`np.zeros`). -/
def zerosV (n : ℕ) : List ℤ := List.replicate n 0

/-- Event tag: the Python code distinguishes `"deck_draw"` and `"action"`
string kinds. -/
inductive EventKind where
  | deck_draw : EventKind
  | action    : EventKind
deriving DecidableEq, Repr, Inhabited

/-- An event dictionary `{"kind", "who", "cards"}` from the source. -/
structure Event where
  kind  : EventKind
  who   : String
  cards : List ℤ
deriving DecidableEq, Repr, Inhabited

/-- Association-list lookup for the `hands` dictionary; Python raises
`KeyError` on a missing key, which never happens on the keys the engine
uses, so a default is returned instead. -/
def aGet (l : List (String × List ℤ)) (k : String) : List ℤ :=
  match l.find? (fun kv => kv.1 = k) with
  | some kv => kv.2
  | none    => []

/-- Association-list update for the `hands` dictionary. -/
def aSet (l : List (String × List ℤ)) (k : String) (v : List ℤ) :
    List (String × List ℤ) :=
  l.map (fun kv => if kv.1 = k then (kv.1, v) else kv)

/-- Lookup in the `scoreboard` dictionary. -/
def sGet (l : List (String × ℤ)) (k : String) : ℤ :=
  match l.find? (fun kv => kv.1 = k) with
  | some kv => kv.2
  | none    => 0

/-- Update in the `scoreboard` dictionary. -/
def sSet (l : List (String × ℤ)) (k : String) (v : ℤ) : List (String × ℤ) :=
  l.map (fun kv => if kv.1 = k then (kv.1, v) else kv)

/-- The `Kariba` game-state object: species count, hand capacity, turn
index, player names, deck / field vectors and per-player hands and scores
(dictionaries in `player_names` order). -/
structure Game where
  n_species    : ℕ
  max_n_hand   : ℤ
  whose_turn_  : ℕ
  player_names : List String
  deck         : List ℤ
  field        : List ℤ
  hands        : List (String × List ℤ)
  scoreboard   : List (String × ℤ)
deriving DecidableEq, Repr, Inhabited

namespace Game

/-- Property `whose_turn`: the name of the player on turn. -/
def whose_turn (g : Game) : String := g.player_names.getD g.whose_turn_ ""

/-- Property `who_next_turn_`: `(whose_turn_ + 1) % n_players`. -/
def who_next_turn_ (g : Game) : ℕ := (g.whose_turn_ + 1) % g.player_names.length

/-- Method `next_turn`. -/
def next_turn (g : Game) : Game := { g with whose_turn_ := g.who_next_turn_ }

/-- Property `is_final`: deck empty and some player's hand empty. -/
def is_final (g : Game) : Bool :=
  vsum g.deck == 0 && g.player_names.any (fun p => vsum (aGet g.hands p) == 0)

/-- Method `jungle(player)`: `sum([deck] + [other players' hands])`,
folding pointwise addition starting from the deck, in dictionary order. -/
def jungle (g : Game) (player : String) : List ℤ :=
  (g.hands.filter (fun kv => kv.1 ≠ player)).foldl (fun acc kv => vadd acc kv.2) g.deck

/-- Indices of the nonzero entries of a vector, ascending
(`np.nonzero(v)[0]`). -/
def nonzeroIdxs (v : List ℤ) : List ℕ :=
  (List.range v.length).filter (fun i => v.getD i 0 ≠ 0)

/-- Method `apply_event`, translated line by line from the source.
For an action event, `np.nonzero(cards)[0][0]` raises IndexError on an
all-zero card vector; that situation is unreachable through
`allowed_actions`, and the embedding then simply skips the chase block. -/
def apply_event (g : Game) (event : Event) : Game :=
  match event.kind with
  | .deck_draw =>
      { g with deck  := vsub g.deck event.cards,
               hands := aSet g.hands event.who (vadd (aGet g.hands event.who) event.cards) }
  | .action =>
      let g1 : Game :=
        { g with hands := aSet g.hands event.who (vsub (aGet g.hands event.who) event.cards),
                 field := vadd g.field event.cards }
      match (List.range event.cards.length).find? (fun i => event.cards.getD i 0 ≠ 0) with
      | none => g1
      | some action_animal =>
          if 3 ≤ g1.field.getD action_animal 0 then
            -- fear_animal = -1 denotes that there is no animal to be chased away
            let fear_animal : ℤ :=
              if action_animal = 0 then (g1.n_species : ℤ) - 1
              else ((nonzeroIdxs g1.field).filter (fun idx => idx < action_animal)).foldl
                     (fun (m : ℤ) (idx : ℕ) => max m (idx : ℤ)) (-1)
            if 0 ≤ fear_animal then
              { g1 with
                scoreboard := sSet g1.scoreboard g1.whose_turn
                  (sGet g1.scoreboard g1.whose_turn + g1.field.getD fear_animal.toNat 0),
                field := g1.field.set fear_animal.toNat 0 }
            else g1
          else g1

/-- Method `allowed_actions(player)`: for each species index and each count
from 1 to the held count, one action event, in comprehension order. -/
def allowed_actions (g : Game) (player : String) : List Event :=
  ((List.range g.n_species).flatMap (fun idx =>
    (List.range ((aGet g.hands player).getD idx 0).toNat).map (fun k =>
      smulV ((k : ℤ) + 1) (oneHot idx g.n_species)))).map (fun cards =>
    { kind := .action, who := player, cards := cards })

/-- Modelled from the spec: `util.keywithmaxval` is not under `src/`; the
spec describes it as a "max by key" selector whose reference behavior picks
an implementation-defined first maximum, so the first key attaining the
maximal value is returned. -/
def keywithmaxval (l : List (String × ℤ)) : String :=
  (l.foldl (fun best kv => if best.2 < kv.2 then kv else best) (l.headD ("", 0))).1

/-- Property `leading_player`. -/
def leading_player (g : Game) : String := keywithmaxval g.scoreboard

end Game

/-- Oracle: an explicit stream of naturals standing in for the process-wide
random source (`np.random`, `random`).  An exhausted stream keeps
producing 0. -/
structure Orc where
  vals : List ℕ
deriving DecidableEq, Repr, Inhabited

/-- Draw the next value from the oracle. -/
def Orc.next (o : Orc) : ℕ × Orc :=
  match o.vals with
  | []      => (0, ⟨[]⟩)
  | v :: vs => (v, ⟨vs⟩)

/-- Failure modes of the weighted draw.  `invalidProbability` models numpy's
ValueError when `np.random.choice` receives the NaN vector produced by a
zero-total weight division.  `exhaustedDeck` is Modelled from the spec: the
spec demands an `ExhaustedDeckError` in that situation, but the source
defines and raises no such error, so this constructor is never produced by
the embedded code. -/
inductive DrawErr where
  | invalidProbability : DrawErr
  | exhaustedDeck      : DrawErr
deriving DecidableEq, Repr

/-- Given positive weights `w` summing to `total` and a unit position `m`
with `m < total`, the species index whose cumulative weight block contains
`m`.  This realises `np.random.choice(range S, p = w / total)`: exactly the
indices of positive weight are reachable, each with its weight's share of
oracle values. -/
def pickIdx (w : List ℤ) (m : ℕ) : ℕ :=
  go 0 m w
where
  go (i m : ℕ) : List ℤ → ℕ
    | []      => i
    | x :: xs => if (m : ℤ) < x then i else go (i + 1) (m - x.toNat) xs

/-- The sampling loop inside `random_card_draw`: draw `k` cards one at a
time, each with probability proportional to `deck - cards`.  A zero (or
negative) total weight makes the Python division produce an invalid
probability vector on which `np.random.choice` raises; no
`ExhaustedDeckError` exists in the source. -/
def drawLoop (n_species : ℕ) (deck : List ℤ) : ℕ → List ℤ → Orc →
    Except DrawErr (List ℤ × Orc)
  | 0,     cards, o => .ok (cards, o)
  | k + 1, cards, o =>
      let w := vsub deck cards
      let total := vsum w
      if total ≤ 0 then .error .invalidProbability
      else
        let (r, o') := o.next
        let i := pickIdx w (r % total.toNat)
        drawLoop n_species deck k (vadd cards (oneHot i n_species)) o'

/-- Method `random_card_draw`: compute
`n_to_draw = min(max_n_hand - n_hand, sum deck)` (Python `range` of a
negative number is empty, matching `Int.toNat`), run the sampling loop, and
wrap the drawn cards in a deck-draw event for the player on turn. -/
def Game.random_card_draw (g : Game) (o : Orc) : Except DrawErr (Event × Orc) :=
  (drawLoop g.n_species g.deck
      ((min (g.max_n_hand - vsum (aGet g.hands g.whose_turn)) (vsum g.deck)).toNat)
      (zerosV g.n_species) o).map
    (fun p => ({ kind := .deck_draw, who := g.whose_turn, cards := p.1 }, p.2))

/-- A node of a per-player information-set tree.  The Python `Node` stores
a snapshot of the player's observable view (`hand`, `field`, `jungle`),
the turn marker, visit statistics, and — only for post-action nodes — the
triggering action.  The Python attribute `action` does not exist on
neutral nodes (reading it raises AttributeError), modelled here by
`action = none`.  Parent references become indices into the tree's arena
(`none` for the root). -/
structure NodeData where
  player         : String
  whose_turn     : String
  hand           : List ℤ
  field          : List ℤ
  jungle         : List ℤ
  n              : ℕ
  w              : ℕ
  is_root_node   : Bool
  is_post_action : Bool
  action         : Option Event
  untried        : Option (List Event)
  parent         : Option ℕ
deriving DecidableEq, Repr, Inhabited

/-- Constructor `Node.__init__`: views of the (already updated, deep-copied)
game from `player`'s perspective; `is_post_action` iff the triggering event
is an action by the owning player. -/
def mkNode (game : Game) (player : String) (event : Option Event)
    (parent : Option ℕ) : NodeData :=
  let ipa : Bool :=
    match event with
    | some e => e.kind == .action && e.who == player
    | none   => false
  { player := player
    whose_turn := game.whose_turn
    hand := aGet game.hands player
    field := game.field
    jungle := game.jungle player
    n := 0
    w := 0
    is_root_node := parent.isNone
    is_post_action := ipa
    action := if ipa then event else none
    untried := none
    parent := parent }

/-- Function `is_equivalent_node`, translated verbatim from the source.
Note that the source's second conjunct compares
`node_a.is_post_action_node` with `node_a.is_post_action_node` — the same
node on both sides — so it is identically true and the flag never
influences the result. -/
def is_equivalent_node (node_a node_b : NodeData) : Bool :=
  node_a.player == node_b.player &&
  node_a.is_post_action == node_a.is_post_action &&
  node_a.hand == node_b.hand &&
  node_a.field == node_b.field &&
  node_a.jungle == node_b.jungle

/-- A per-player tree: arena of nodes (index 0 is the root, children are
accumulated in append order, matching Python's child lists), a cursor
(`current_node`), and the `is_on_rollout_policy` flag.  The Python tree
also aliases the coordinator's live game; the embedding passes the game
explicitly instead. -/
structure TreeState where
  player  : String
  nodes   : List NodeData
  cursor  : ℕ
  rollout : Bool
deriving DecidableEq, Repr, Inhabited

/-- A default node, used only for out-of-range arena reads that the engine
never performs. -/
def dNode : NodeData := default

/-- Constructor `Tree.__init__`: a single root node built from a deep copy
of the game, cursor on the root, selection mode. -/
def mkTree (game : Game) (player : String) : TreeState :=
  { player := player, nodes := [mkNode game player none none], cursor := 0, rollout := false }

/-- Indices of the children of node `i`, in append order (Python's
`node.children` list). -/
def childrenIdxs (t : TreeState) (i : ℕ) : List ℕ :=
  (List.range t.nodes.length).filter (fun j => (t.nodes.getD j dNode).parent = some i)

/-- Method `Tree.apply_event`.  A no-op in rollout mode.  Otherwise build a
candidate node from the post-event game, compare it against
`[current_node, *current_node.children]` in order, move the cursor to the
first match, or append the candidate, move the cursor to it, and flip to
rollout mode. -/
def treeApplyEvent (t : TreeState) (gameAfter : Game) (event : Event) : TreeState :=
  if t.rollout then t
  else
    let new_node := mkNode gameAfter t.player (some event) (some t.cursor)
    let cur := t.nodes.getD t.cursor dNode
    if is_equivalent_node cur new_node then { t with cursor := t.cursor }
    else
      match (childrenIdxs t t.cursor).find?
          (fun j => is_equivalent_node (t.nodes.getD j dNode) new_node) with
      | some j => { t with cursor := j }
      | none   =>
          { t with nodes := t.nodes ++ [new_node],
                   cursor := t.nodes.length,
                   rollout := true }

/-- Method `Node.backpropagate`, walking the parent chain from node `i` to
the root: every visited node's `n` is incremented, and a post-action node's
`w` is incremented when the winner is the owning player.  The recursion is
bounded by `fuel`; parent indices strictly decrease in trees built by
`treeApplyEvent`, so `nodes.length` fuel always suffices. -/
def bpWalk (winner : String) : ℕ → List NodeData → ℕ → List NodeData
  | 0, nodes, _ => nodes
  | fuel + 1, nodes, i =>
      let nd := nodes.getD i dNode
      let nd' := { nd with
        n := nd.n + 1,
        w := nd.w + (if nd.is_post_action && winner == nd.player then 1 else 0) }
      let nodes' := nodes.set i nd'
      match nd.parent with
      | none   => nodes'
      | some p => bpWalk winner fuel nodes' p

/-- Method `Tree.backpropagate`: delegate to the current node. -/
def treeBackpropagate (t : TreeState) (winner : String) : TreeState :=
  { t with nodes := bpWalk winner (t.nodes.length + 1) t.nodes t.cursor }

/-- First index attaining the maximal value of `f` on `l` (`np.argmax`
keeps the first maximum). -/
def argmaxBy (f : ℕ → ℕ) (l : List ℕ) : Option ℕ :=
  l.foldl (fun best j =>
    match best with
    | none   => some j
    | some b => if f b < f j then some j else some b) none

/-- The `return_best_action=True` branch of `Tree.select_action`: the
action of the max-visit child of the *current* node.  `none` models the
Python failures: IndexError from `np.argmax` on a childless node, and
AttributeError from reading `.action` of a neutral child. -/
def selectBestAction (t : TreeState) : Option Event :=
  match argmaxBy (fun j => (t.nodes.getD j dNode).n) (childrenIdxs t t.cursor) with
  | none   => none
  | some j => (t.nodes.getD j dNode).action

/-- Failure modes of the selection policy and coordinator lookups:
`emptyChoice` models the ValueError of `np.random.choice` on an empty
action list (and of `np.argmax` on an empty child list), `lenOfNone` the
TypeError of `len(None)` when the cursor has children but uninitialised
untried actions, `missingAction` the AttributeError of reading `.action`
off a neutral node, and `keyError` a missing dictionary key. -/
inductive SErr where
  | emptyChoice   : SErr
  | lenOfNone     : SErr
  | missingAction : SErr
  | keyError      : SErr
deriving DecidableEq, Repr

/-- Model of `random.shuffle`: repeatedly extract the element at an
oracle-chosen position.  Every permutation of the input is produced by some
oracle, which is all the verified claims depend on. -/
def shuffleGo : ℕ → List Event → Orc → List Event × Orc
  | 0, l, o => (l, o)
  | fuel + 1, l, o =>
      match l with
      | []     => ([], o)
      | _ :: _ =>
          let (r, o') := o.next
          let i := r % l.length
          let x := l.getD i default
          let rest := l.take i ++ l.drop (i + 1)
          let (xs, o'') := shuffleGo fuel rest o'
          (x :: xs, o'')

/-- Shuffle a list of events, driven by the oracle. -/
def shuffle (l : List Event) (o : Orc) : List Event × Orc := shuffleGo l.length l o

/-- Method `Tree.select_action` with `return_best_action=False`.  In
rollout mode: a uniformly random legal action of the live game.  In
selection mode: initialise and shuffle the cursor's untried actions on
first entry (only when it has no children yet), pop the last untried
action while any remain, otherwise take the child maximising the UCB
score.  The UCB argmax compares floating-point scores
`w/n + c*sqrt(2*ln(parent.n)/n)`; which child wins that comparison is
modelled as an oracle choice among the children, since no verified claim
depends on the float ordering.  Returns the chosen event together with
the updated tree (the Python code mutates `untried_actions` in place). -/
def treeSelectAction (t : TreeState) (game : Game) (o : Orc) :
    Except SErr (Event × TreeState × Orc) :=
  if t.rollout then
    let acts := game.allowed_actions t.player
    if acts.length = 0 then .error .emptyChoice
    else
      let (r, o') := o.next
      .ok (acts.getD (r % acts.length) default, t, o')
  else
    let cur := t.nodes.getD t.cursor dNode
    let step : Except SErr (List Event × Orc) :=
      match cur.untried with
      | some us => .ok (us, o)
      | none    =>
          match childrenIdxs t t.cursor with
          | [] =>
              let (l, o') := shuffle (game.allowed_actions t.player) o
              .ok (l, o')
          | _ :: _ => .error .lenOfNone
    match step with
    | .error e => .error e
    | .ok (us, o') =>
        match us.getLast? with
        | some ev =>
            let cur' := { cur with untried := some us.dropLast }
            .ok (ev, { t with nodes := t.nodes.set t.cursor cur' }, o')
        | none =>
            match childrenIdxs t t.cursor with
            | [] => .error .emptyChoice
            | cs =>
                let (r, o'') := o'.next
                let j := cs.getD (r % cs.length) 0
                match (t.nodes.getD j dNode).action with
                | some a => .ok (a, { t with nodes := t.nodes.set t.cursor { cur with untried := some us } }, o'')
                | none   => .error .missingAction

/-- The `Simulators` coordinator: the immutable reset snapshot, the live
game, and one tree per player in `player_names` order (the `tree_dict`). -/
structure Sim where
  reset_state : Game
  game        : Game
  players     : List String
  trees       : List TreeState
deriving DecidableEq, Repr, Inhabited

/-- Constructor `Simulators.__init__` as called by `moismcts`: deep copies
make the snapshot, the live game and every tree root carry the same state
value. -/
def simInit (game : Game) : Sim :=
  { reset_state := game
    game := game
    players := game.player_names
    trees := game.player_names.map (fun p => mkTree game p) }

/-- Method `Simulators.apply_event`: apply to the live game first, then to
every tree (each tree observes the post-event game). -/
def simApplyEvent (sim : Sim) (event : Event) : Sim :=
  let g' := sim.game.apply_event event
  { sim with game := g', trees := sim.trees.map (fun t => treeApplyEvent t g' event) }

/-- Method `Simulators.select_action` (policy branch): delegate to the tree
of the player on turn in the live game, writing the updated tree back. -/
def simSelectAction (sim : Sim) (o : Orc) : Except SErr (Event × Sim × Orc) :=
  match sim.players.findIdx? (fun p => p = sim.game.whose_turn) with
  | none   => .error .keyError
  | some i =>
      match treeSelectAction (sim.trees.getD i default) sim.game o with
      | .error e => .error e
      | .ok (ev, t', o') => .ok (ev, { sim with trees := sim.trees.set i t' }, o')

/-- Method `Simulators.reset_game`: replace the live game with a fresh deep
copy of the reset snapshot; move every tree's cursor back to its root and
switch it back to the UCB (selection) policy.  Nothing else in any tree is
touched.  (The Python `tree.game = self.game` re-aliasing has no
counterpart here because the embedding passes the game explicitly.) -/
def simReset (sim : Sim) : Sim :=
  { sim with
    game := sim.reset_state,
    trees := sim.trees.map (fun t => { t with cursor := 0, rollout := false }) }

/-- Method `Simulators.backpropagate`: into every tree. -/
def simBackpropagate (sim : Sim) (winner : String) : Sim :=
  { sim with trees := sim.trees.map (fun t => treeBackpropagate t winner) }

/-- Method `Simulators.next_turn`. -/
def simNextTurn (sim : Sim) : Sim := { sim with game := sim.game.next_turn }

/-- Failure modes of a whole simulated game: a sampling error, a selection
error, or exhaustion of the fuel bounding the (in Python unbounded) while
loop. -/
inductive RunErr where
  | draw          : DrawErr → RunErr
  | sel           : SErr → RunErr
  | fuelExhausted : RunErr
deriving DecidableEq, Repr

/-- The body of `moismcts`'s inner `while not simulators.game.is_final`
loop: draw cards for the player on turn, apply; select an action, apply;
advance the turn. -/
def playGame : ℕ → Sim → Orc → Except RunErr (Sim × Orc)
  | 0, _, _ => .error .fuelExhausted
  | fuel + 1, sim, o =>
      if sim.game.is_final then .ok (sim, o)
      else
        match sim.game.random_card_draw o with
        | .error e => .error (.draw e)
        | .ok (ev, o₁) =>
            let sim₁ := simApplyEvent sim ev
            match simSelectAction sim₁ o₁ with
            | .error e => .error (.sel e)
            | .ok (act, sim₂, o₂) =>
                playGame fuel (simNextTurn (simApplyEvent sim₂ act)) o₂

/-- One search repetition: play a simulated game to the end, compute the
winner, backpropagate into every tree, and reset for the next repetition. -/
def runOnce (fuel : ℕ) (sim : Sim) (o : Orc) : Except RunErr (Sim × Orc) :=
  match playGame fuel sim o with
  | .error e => .error e
  | .ok (sim₁, o₁) =>
      .ok (simReset (simBackpropagate sim₁ sim₁.game.leading_player), o₁)

/-- The first `n` search repetitions of `moismcts`. -/
def runRepeats (fuel : ℕ) : ℕ → Sim → Orc → Except RunErr (Sim × Orc)
  | 0, sim, o => .ok (sim, o)
  | n + 1, sim, o =>
      match runOnce fuel sim o with
      | .error e => .error e
      | .ok (sim₁, o₁) => runRepeats fuel n sim₁ o₁

/-- Function `moismcts(root_state, n)`: run `n` simulated games and return
`simulators.select_action(return_best_action=True)` — the action of the
max-visit child of the on-turn player's tree cursor.  A result of
`.ok none` means that final read raised in Python (AttributeError on a
neutral node or IndexError on a childless cursor). -/
def moismcts (root_state : Game) (n : ℕ) (o : Orc) (fuel : ℕ) :
    Except RunErr (Option Event) :=
  match runRepeats fuel n (simInit root_state) o with
  | .error e => .error e
  | .ok (sim, _) =>
      match sim.players.findIdx? (fun p => p = sim.game.whose_turn) with
      | none   => .error (.sel .keyError)
      | some i => .ok (selectBestAction (sim.trees.getD i default))

/-! Specification-side definitions and concrete states used by the claim
theorems. -/

/-- The hand-to-field move of an action event, written from the spec's
words: subtract the cards from the actor's hand, add them to the field. -/
def moveToField (g : Game) (who : String) (cards : List ℤ) : Game :=
  { g with hands := aSet g.hands who (vsub (aGet g.hands who) cards),
           field := vadd g.field cards }

/-- The chased species according to the spec: the largest index `f < a`
with a nonzero field count (the qualifying indices below `a` listed
ascending, so their last element is the largest), or `S-1` when `a = 0`;
`none` when no index qualifies. -/
def specChaseTarget (field : List ℤ) (a S : ℕ) : Option ℕ :=
  if a = 0 then some (S - 1)
  else ((List.range a).filter (fun f => field.getD f 0 ≠ 0)).getLast?

/-- The behaviour claim C2 describes for an action event of species `a`,
written from the spec's words: move the cards from the actor's hand to the
field; then, if the field now holds at least three of species `a` and a
chased species `f` exists (`specChaseTarget`), add `field[f]` to the
current-turn player's score and zero `field[f]`; otherwise nothing beyond
the hand-to-field move changes. -/
def specApplyAction (g : Game) (who : String) (a : ℕ) (cards : List ℤ) : Game :=
  let g1 := moveToField g who cards
  if 3 ≤ g1.field.getD a 0 then
    match specChaseTarget g1.field a g.n_species with
    | some f =>
        { g1 with
          scoreboard := sSet g1.scoreboard g1.whose_turn
            (sGet g1.scoreboard g1.whose_turn + g1.field.getD f 0),
          field := g1.field.set f 0 }
    | none => g1
  else g1

/-- Total card count of the hands dictionary. -/
def handsTotal (hands : List (String × List ℤ)) : ℤ :=
  (hands.map (fun kv => vsum kv.2)).sum

/-- Total score of the scoreboard. -/
def scoreTotal (sb : List (String × ℤ)) : ℤ := (sb.map (fun kv => kv.2)).sum

/-- The conserved quantity of claim C4:
`sum(deck) + sum(field) + Σ sum(hand_p) + Σ score_p`. -/
def totalCards (g : Game) : ℤ :=
  vsum g.deck + vsum g.field + handsTotal g.hands + scoreTotal g.scoreboard

/-- Well-formedness of a game state: all count-vectors have length
`n_species`, the hand and score dictionaries are keyed exactly by the
(duplicate-free) player names, and the turn index is in range.  Every
state the engine builds from a sane root satisfies this. -/
structure GameWF (g : Game) : Prop where
  deck_len    : g.deck.length = g.n_species
  field_len   : g.field.length = g.n_species
  hands_len   : ∀ kv ∈ g.hands, kv.2.length = g.n_species
  hands_keys  : g.hands.map Prod.fst = g.player_names
  sb_keys     : g.scoreboard.map Prod.fst = g.player_names
  names_nodup : g.player_names.Nodup
  turn_lt     : g.whose_turn_ < g.player_names.length

/-- Well-formedness of an event relative to a state: the card vector has
species length and the actor is a known player. -/
def EventWF (g : Game) (e : Event) : Prop :=
  e.cards.length = g.n_species ∧ e.who ∈ g.player_names

/-- The root state of the spec's end-to-end example: two species, two
players, hand capacity 2, deck `[4,4]`, empty hands and field. -/
def exampleRoot : Game :=
  { n_species := 2, max_n_hand := 2, whose_turn_ := 0,
    player_names := ["player0", "player1"],
    deck := [4, 4], field := [0, 0],
    hands := [("player0", [0, 0]), ("player1", [0, 0])],
    scoreboard := [("player0", 0), ("player1", 0)] }

/-- A concrete state on which an action triggers the chase effect. -/
def chaseRoot : Game :=
  { exampleRoot with field := [1, 2],
                     hands := [("player0", [0, 2]), ("player1", [0, 0])] }

/-- A minimal root state (one species, one card, hand capacity 1) whose
whole game tree is explored within two search repetitions. -/
def tinyRoot : Game :=
  { n_species := 1, max_n_hand := 1, whose_turn_ := 0,
    player_names := ["player0", "player1"],
    deck := [1], field := [0],
    hands := [("player0", [0]), ("player1", [0])],
    scoreboard := [("player0", 0), ("player1", 0)] }

/-- A concrete post-action node used to exhibit the self-comparison defect
of `is_equivalent_node`. -/
def nodePA : NodeData :=
  { player := "player0", whose_turn := "player0",
    hand := [1, 0], field := [2, 0], jungle := [3, 1],
    n := 0, w := 0, is_root_node := false, is_post_action := true,
    action := some { kind := .action, who := "player0", cards := [1, 0] },
    untried := none, parent := some 0 }

/-- The same node with the post-action flag cleared (a neutral node):
identical player, hand, field and jungle, different
`is_post_action_node`. -/
def nodeNeutral : NodeData :=
  { nodePA with is_post_action := false, action := none }

/-- A concrete two-node tree: a root with one post-action child, cursor on
the root. -/
def twoNodeTree : TreeState :=
  { player := "player0",
    nodes := [mkNode tinyRoot "player0" none none, nodePA],
    cursor := 0, rollout := false }

/-- A concrete two-node tree whose only child is neutral (as deck-draw
children are), cursor on the root. -/
def twoNodeTreeNeutral : TreeState :=
  { twoNodeTree with nodes := [mkNode tinyRoot "player0" none none, nodeNeutral] }

/-! Claim theorems. -/

/-- Claim C3: the claim states that two nodes are equivalent iff they agree
on owning player, `is_post_action_node` flag, hand, field and jungle, and in
particular that nodes differing only in the flag are not equivalent.  The
source's flag conjunct compares `node_a` with itself, so the flag is
ignored: the first conjunct shows `is_equivalent_node` reduces to the
flag-free comparison, and the remaining conjuncts evaluate it at two
concrete nodes that differ only in the flag, where it wrongly returns
`true`. -/
theorem c3_equivalence_ignores_flag :
    (∀ a b : NodeData, is_equivalent_node a b =
      (a.player == b.player && a.hand == b.hand && a.field == b.field &&
        a.jungle == b.jungle)) ∧
    is_equivalent_node nodePA nodeNeutral = true ∧
    nodePA.is_post_action ≠ nodeNeutral.is_post_action := by
  refine ⟨fun a b => ?_, by decide, by decide⟩
  simp [is_equivalent_node]

/-- Claim C6: `reset_game` replaces the live game with the reset snapshot
and, in every tree, moves the cursor back to the root (arena index 0, the
index `mkTree` gives the root) and clears the rollout flag, while leaving
every tree's player and node arena — hence every node's visit count `n`
and win count `w` — unchanged. -/
theorem c6_reset_preserves_statistics (sim : Sim) :
    (simReset sim).game = sim.reset_state ∧
    (simReset sim).reset_state = sim.reset_state ∧
    (simReset sim).players = sim.players ∧
    (simReset sim).trees.map (fun t => t.nodes) = sim.trees.map (fun t => t.nodes) ∧
    (simReset sim).trees.map (fun t => t.player) = sim.trees.map (fun t => t.player) ∧
    (simReset sim).trees.map (fun t => t.cursor) = sim.trees.map (fun _ => 0) ∧
    (simReset sim).trees.map (fun t => t.rollout) = sim.trees.map (fun _ => false) := by
  refine ⟨rfl, rfl, rfl, ?_, ?_, ?_, ?_⟩ <;> simp [simReset, Function.comp_def]

/-- Claim C10: while a tree is in selection mode, an event whose post-event
view for the owning player (hand, field, jungle) equals the view stored in
the cursor node matches the current node itself — the comparison list
starts with the current node — so the tree is left entirely unchanged: the
cursor stays, no node is appended, and the tree remains in selection
mode. -/
theorem c10_matching_event_keeps_cursor (t : TreeState) (g : Game) (e : Event)
    (hroll : t.rollout = false)
    (hp : (t.nodes.getD t.cursor dNode).player = t.player)
    (hh : (t.nodes.getD t.cursor dNode).hand = aGet g.hands t.player)
    (hf : (t.nodes.getD t.cursor dNode).field = g.field)
    (hj : (t.nodes.getD t.cursor dNode).jungle = g.jungle t.player) :
    treeApplyEvent t g e = t := by
  obtain ⟨tp, tn, tc, tr⟩ := t
  simp only at hroll hp hh hf hj
  subst hroll
  have hequiv : is_equivalent_node (tn.getD tc dNode)
      (mkNode g tp (some e) (some tc)) = true := by
    simp only [is_equivalent_node, mkNode]
    rw [hp, hh, hf, hj]
    simp
  rw [List.getD_eq_getElem?_getD] at hequiv
  simp [treeApplyEvent, hequiv]

/-- Claim C10 witness: a freshly built tree on the tiny root state, with a
zero-card deck draw, is left unchanged. -/
theorem c10_witness :
    treeApplyEvent (mkTree tinyRoot "player0") tinyRoot
      { kind := .deck_draw, who := "player0", cards := [0] } =
      mkTree tinyRoot "player0" :=
  c10_matching_event_keeps_cursor _ _ _ (by decide) (by decide) (by decide)
    (by decide) (by decide)

/-- Claim C1 (code evaluation at the failing input): on the spec's own
end-to-end root state (two species, deck `[4,4]`, hand capacity 2, empty
hands) the first event of every search repetition is a two-card deck draw,
so the on-turn player's root only ever acquires neutral deck-draw children;
the final `select_action(return_best_action=True)` therefore reads
`.action` off a neutral node, which raises AttributeError in Python and is
`none` here — no legal action is returned.  The second conjunct shows that
after one repetition every node of player0's tree carries no action. -/
theorem c1_search_fails_on_example_root :
    moismcts exampleRoot 1 ⟨[]⟩ 40 = .ok none ∧
    (runRepeats 40 1 (simInit exampleRoot) ⟨[]⟩).map
      (fun p => (p.1.trees.getD 0 default).nodes.map (fun nd => nd.action)) =
      .ok [none, none] :=
  ⟨by decide, by decide⟩

/-- Claim C5 counterexample: on the tiny root state the first simulated
game adds one node to each tree (sizes `[2, 2]`), but the second simulated
game adds a node only to player0's tree (sizes `[3, 2]`): every event of
the second game matches an existing node of player1's tree, so that tree
gains no node at all and never flips to rollout — refuting "exactly one
new node is added to each tree per simulated game". -/
theorem c5_second_game_adds_no_node_to_tree1 :
    (runRepeats 10 1 (simInit tinyRoot) ⟨[]⟩).map
      (fun p => p.1.trees.map (fun t => t.nodes.length)) = .ok [2, 2] ∧
    (runRepeats 10 2 (simInit tinyRoot) ⟨[]⟩).map
      (fun p => p.1.trees.map (fun t => t.nodes.length)) = .ok [3, 2] :=
  ⟨by decide, by decide⟩

/-- Claim C7 counterexample: a sampling step against a fully depleted
remaining pool (`deck - cards` summing to zero) produces the
invalid-probability failure that numpy's division by zero leads to, not an
`ExhaustedDeckError` — the source defines no such error. -/
theorem c7_depleted_pool_is_probability_error :
    drawLoop 2 [0, 0] 1 [0, 0] ⟨[]⟩ = .error .invalidProbability ∧
    drawLoop 2 [0, 0] 1 [0, 0] ⟨[]⟩ ≠ .error .exhaustedDeck :=
  ⟨by decide, by decide⟩

/-- Helper: `Tree.apply_event` is a no-op in rollout mode. -/
theorem treeApplyEvent_of_rollout (t : TreeState) (g : Game) (e : Event)
    (h : t.rollout = true) : treeApplyEvent t g e = t := by
  simp [treeApplyEvent, h]

/-- Helper: in selection mode, `Tree.apply_event` either only moves the
cursor (match case, node arena and mode untouched) or appends exactly the
candidate node, moves the cursor onto it, and flips to rollout mode. -/
theorem treeApplyEvent_of_selecting (t : TreeState) (g : Game) (e : Event)
    (h : t.rollout = false) :
    (∃ j, treeApplyEvent t g e = { t with cursor := j }) ∨
    treeApplyEvent t g e =
      { t with nodes := t.nodes ++ [mkNode g t.player (some e) (some t.cursor)],
               cursor := t.nodes.length,
               rollout := true } := by
  unfold treeApplyEvent
  rw [h]
  simp only [Bool.false_eq_true, if_false]
  split
  · exact Or.inl ⟨t.cursor, rfl⟩
  · split
    · exact Or.inl ⟨_, rfl⟩
    · exact Or.inr rfl

/-- Helper: folding any sequence of events through a tree grows the node
arena by at most one when starting in selection mode, and not at all when
starting in rollout mode. -/
theorem treeApply_foldl_growth (steps : List (Game × Event)) :
    ∀ t : TreeState,
      (steps.foldl (fun acc pe => treeApplyEvent acc pe.1 pe.2) t).nodes.length ≤
        t.nodes.length + (if t.rollout then 0 else 1) := by
  induction steps with
  | nil =>
      intro t
      cases h : t.rollout <;> simp
  | cons pe rest ih =>
      intro t
      simp only [List.foldl_cons]
      cases hr : t.rollout
      · rcases treeApplyEvent_of_selecting t pe.1 pe.2 hr with ⟨j, hj⟩ | happ
        · rw [hj]
          have := ih { t with cursor := j }
          simpa [hr] using this
        · rw [happ]
          have := ih { t with
            nodes := t.nodes ++ [mkNode pe.1 t.player (some pe.2) (some t.cursor)],
            cursor := t.nodes.length, rollout := true }
          simp only [if_pos rfl, Nat.add_zero] at this
          simpa [hr] using le_trans this (by simp)
      · rw [treeApplyEvent_of_rollout t pe.1 pe.2 hr]
        have := ih t
        simpa [hr] using this

/-- Claim C5 (amended): per simulated game — a sequence of applied events
between two resets — a tree starting in selection mode (a) is left
entirely unchanged by any event once in rollout mode, (b) on each event in
selection mode either only moves its cursor (candidate matched, arena and
mode untouched) or appends exactly one new node, moves the cursor to it
and flips to rollout mode, and (c) consequently gains at most one new node
over the whole sequence. -/
theorem c5_amended_single_expansion :
    (∀ (t : TreeState) (g : Game) (e : Event), t.rollout = true →
        treeApplyEvent t g e = t) ∧
    (∀ (t : TreeState) (g : Game) (e : Event), t.rollout = false →
        (∃ j, treeApplyEvent t g e = { t with cursor := j }) ∨
        treeApplyEvent t g e =
          { t with nodes := t.nodes ++ [mkNode g t.player (some e) (some t.cursor)],
                   cursor := t.nodes.length,
                   rollout := true }) ∧
    (∀ (t : TreeState) (steps : List (Game × Event)), t.rollout = false →
        (steps.foldl (fun acc pe => treeApplyEvent acc pe.1 pe.2) t).nodes.length ≤
          t.nodes.length + 1) := by
  refine ⟨treeApplyEvent_of_rollout, treeApplyEvent_of_selecting, fun t steps h => ?_⟩
  have := treeApply_foldl_growth steps t
  simpa [h] using this

/-- Claim C5 witness: the three parts of the amended claim instantiated on
concrete trees — a rollout-mode tree is unchanged, a selection-mode tree
falls in one of the two described cases, and a one-event game grows the
tree by at most one node. -/
theorem c5_amended_witness :
    (treeApplyEvent { mkTree tinyRoot "player0" with rollout := true } tinyRoot
        { kind := .deck_draw, who := "player0", cards := [1] } =
      { mkTree tinyRoot "player0" with rollout := true }) ∧
    ((∃ j, treeApplyEvent (mkTree tinyRoot "player0") tinyRoot
            { kind := .deck_draw, who := "player0", cards := [1] } =
          { mkTree tinyRoot "player0" with cursor := j }) ∨
      treeApplyEvent (mkTree tinyRoot "player0") tinyRoot
          { kind := .deck_draw, who := "player0", cards := [1] } =
        { mkTree tinyRoot "player0" with
            nodes := (mkTree tinyRoot "player0").nodes ++
              [mkNode tinyRoot "player0"
                (some { kind := .deck_draw, who := "player0", cards := [1] })
                (some (mkTree tinyRoot "player0").cursor)],
            cursor := (mkTree tinyRoot "player0").nodes.length,
            rollout := true }) ∧
    (([(tinyRoot, { kind := .deck_draw, who := "player0", cards := [1] : Event })].foldl
        (fun acc pe => treeApplyEvent acc pe.1 pe.2)
        (mkTree tinyRoot "player0")).nodes.length ≤
      (mkTree tinyRoot "player0").nodes.length + 1) :=
  ⟨c5_amended_single_expansion.1 _ tinyRoot _ rfl,
   c5_amended_single_expansion.2.1 _ tinyRoot _ rfl,
   c5_amended_single_expansion.2.2 _ _ rfl⟩

/-- Helper: the fold underlying `argmaxBy` only ever answers with a list
member or with its accumulator. -/
theorem argmaxBy_foldl_mem (f : ℕ → ℕ) :
    ∀ (l : List ℕ) (acc : Option ℕ) (j : ℕ),
      l.foldl (fun best j' =>
        match best with
        | none   => some j'
        | some b => if f b < f j' then some j' else some b) acc = some j →
      j ∈ l ∨ acc = some j := by
  intro l
  induction l with
  | nil => intro acc j h; exact Or.inr h
  | cons x xs ih =>
      intro acc j h
      simp only [List.foldl_cons] at h
      rcases ih _ _ h with hm | hacc
      · exact Or.inl (List.mem_cons_of_mem _ hm)
      · cases acc with
        | none =>
            simp only [] at hacc
            exact Or.inl (by simp [(Option.some.inj hacc).symm])
        | some b =>
            simp only [] at hacc
            by_cases hlt : f b < f x
            · rw [if_pos hlt] at hacc
              exact Or.inl (by simp [(Option.some.inj hacc).symm])
            · rw [if_neg hlt] at hacc
              exact Or.inr hacc

/-- Helper: `argmaxBy` answers with a member of its list. -/
theorem argmaxBy_mem (f : ℕ → ℕ) (l : List ℕ) (j : ℕ)
    (h : argmaxBy f l = some j) : j ∈ l := by
  rcases argmaxBy_foldl_mem f l none j h with hm | hacc
  · exact hm
  · simp at hacc

/-- Claim C9: `select_action(return_best_action=True)` reads the action of
the max-visit child of the current cursor node: (a) with no children the
call fails (`none`, Python's IndexError path); (b) when the visit-count
argmax over the cursor's children answers `j`, the result is node `j`'s
`action` attribute and `j` is one of the children — so the call only
returns an action when that child is a post-action node carrying one; (c)
when every child carries no action (as neutral nodes do), the call fails;
and (d) nodes created from deck-draw events carry no action attribute. -/
theorem c9_best_action_needs_post_action_child :
    (∀ t : TreeState, childrenIdxs t t.cursor = [] → selectBestAction t = none) ∧
    (∀ (t : TreeState) (j : ℕ),
        argmaxBy (fun i => (t.nodes.getD i dNode).n) (childrenIdxs t t.cursor) = some j →
        selectBestAction t = (t.nodes.getD j dNode).action ∧
          j ∈ childrenIdxs t t.cursor) ∧
    (∀ t : TreeState,
        (∀ c ∈ childrenIdxs t t.cursor, (t.nodes.getD c dNode).action = none) →
        selectBestAction t = none) ∧
    (∀ (g : Game) (p : String) (e : Event) (par : Option ℕ), e.kind = .deck_draw →
        (mkNode g p (some e) par).action = none) := by
  refine ⟨fun t h => ?_, fun t j h => ?_, fun t h => ?_, fun g p e par h => ?_⟩
  · simp [selectBestAction, h, argmaxBy]
  · refine ⟨?_, argmaxBy_mem _ _ _ h⟩
    unfold selectBestAction
    simp only [List.getD_eq_getElem?_getD] at h ⊢
    rw [h]
  · cases hm : argmaxBy (fun i => (t.nodes.getD i dNode).n) (childrenIdxs t t.cursor) with
    | none =>
        unfold selectBestAction
        simp only [List.getD_eq_getElem?_getD] at hm ⊢
        rw [hm]
    | some j =>
        have hj := argmaxBy_mem _ _ _ hm
        have hact := h j hj
        unfold selectBestAction
        simp only [List.getD_eq_getElem?_getD] at hm hact ⊢
        rw [hm]
        exact hact
  · simp [mkNode, h]

/-- Claim C9 witness: on a childless tree the call fails; on a tree whose
single child is a post-action node the call returns that child's action;
on a tree whose single child is neutral the call fails; and a deck-draw
node carries no action. -/
theorem c9_witness :
    (childrenIdxs (mkTree tinyRoot "player0") (mkTree tinyRoot "player0").cursor = [] ∧
      selectBestAction (mkTree tinyRoot "player0") = none) ∧
    (selectBestAction twoNodeTree = (twoNodeTree.nodes.getD 1 dNode).action ∧
      1 ∈ childrenIdxs twoNodeTree twoNodeTree.cursor) ∧
    selectBestAction twoNodeTreeNeutral = none ∧
    (mkNode tinyRoot "player0"
        (some { kind := .deck_draw, who := "player0", cards := [1] }) none).action = none :=
  ⟨⟨by decide, c9_best_action_needs_post_action_child.1 _ (by decide)⟩,
   c9_best_action_needs_post_action_child.2.1 twoNodeTree 1 (by decide),
   c9_best_action_needs_post_action_child.2.2.1 twoNodeTreeNeutral (by decide),
   c9_best_action_needs_post_action_child.2.2.2 tinyRoot "player0" _ none rfl⟩

/-- Helper: pointwise addition adds the sums (same-length vectors). -/
theorem vsum_vadd (a : List ℤ) : ∀ b : List ℤ, a.length = b.length →
    vsum (vadd a b) = vsum a + vsum b := by
  induction a with
  | nil => intro b h; cases b <;> simp_all [vadd, vsum]
  | cons x xs ih =>
      intro b h
      cases b with
      | nil => simp at h
      | cons y ys =>
          simp only [vadd, List.zipWith_cons_cons, vsum, List.sum_cons,
            List.length_cons, Nat.succ_inj] at *
          rw [ih ys h]
          ring

/-- Helper: pointwise subtraction subtracts the sums (same-length
vectors). -/
theorem vsum_vsub (a : List ℤ) : ∀ b : List ℤ, a.length = b.length →
    vsum (vsub a b) = vsum a - vsum b := by
  induction a with
  | nil => intro b h; cases b <;> simp_all [vsub, vsum]
  | cons x xs ih =>
      intro b h
      cases b with
      | nil => simp at h
      | cons y ys =>
          simp only [vsub, List.zipWith_cons_cons, vsum, List.sum_cons,
            List.length_cons, Nat.succ_inj] at *
          rw [ih ys h]
          ring

/-- Helper: a one-hot vector with an in-range index sums to one. -/
theorem vsum_oneHot : ∀ (n i : ℕ), i < n → vsum (oneHot i n) = 1 := by
  intro n
  induction n with
  | zero => intro i h; omega
  | succ n ih =>
      intro i h
      unfold oneHot vsum
      rw [List.range_succ, List.map_append, List.sum_append]
      rcases Nat.lt_or_ge i n with hi | hi
      · have h1 := ih i hi
        unfold oneHot vsum at h1
        rw [h1]
        simp
        omega
      · have hie : i = n := by omega
        have h0 : ((List.range n).map (fun j => if j = i then (1:ℤ) else 0)).sum = 0 := by
          apply List.sum_eq_zero
          intro x hx
          rcases List.mem_map.mp hx with ⟨j, hj, hfx⟩
          have : j < n := List.mem_range.mp hj
          simp only [← hfx]
          rw [if_neg (by omega)]
        rw [h0]
        simp [hie]

/-- Helper: the cumulative-weight walk of `pickIdx` lands strictly inside
the weight list whenever the target unit is below the total weight. -/
theorem pickIdx_go_lt (xs : List ℤ) : ∀ (i m : ℕ), (m : ℤ) < vsum xs →
    pickIdx.go i m xs < i + xs.length := by
  induction xs with
  | nil =>
      intro i m h
      simp only [vsum, List.sum_nil] at h
      omega
  | cons x xs ih =>
      intro i m h
      have hs : vsum (x :: xs) = x + vsum xs := by simp [vsum]
      by_cases hx : (m : ℤ) < x
      · simp only [pickIdx.go, if_pos hx, List.length_cons]
        omega
      · simp only [pickIdx.go, if_neg hx, List.length_cons]
        have hrec : ((m - x.toNat : ℕ) : ℤ) < vsum xs := by
          rw [hs] at h
          omega
        have := ih (i + 1) (m - x.toNat) hrec
        omega

/-- Helper: `pickIdx` only picks in-range indices. -/
theorem pickIdx_lt (w : List ℤ) (m : ℕ) (h : (m : ℤ) < vsum w) :
    pickIdx w m < w.length := by
  have := pickIdx_go_lt w 0 m h
  simpa [pickIdx] using this

/-- Helper: the sampling loop never fails while the number of cards left
to draw is covered by the remaining pool: every step's denominator
`sum(deck - cards)` stays strictly positive. -/
theorem drawLoop_ok (S : ℕ) (deck : List ℤ) (hd : deck.length = S) :
    ∀ (k : ℕ) (cards : List ℤ) (o : Orc), cards.length = S →
      (k : ℤ) ≤ vsum deck - vsum cards →
      ∃ r, drawLoop S deck k cards o = .ok r := by
  intro k
  induction k with
  | zero => intro cards o hc hle; exact ⟨(cards, o), rfl⟩
  | succ k ih =>
      intro cards o hc hle
      have hwlen : (vsub deck cards).length = S := by
        simp [vsub, hd, hc]
      have htot : vsum (vsub deck cards) = vsum deck - vsum cards :=
        vsum_vsub _ _ (by omega)
      have hpos : ¬ vsum (vsub deck cards) ≤ 0 := by
        rw [htot]
        push_cast at hle
        omega
      have hmod : ((o.next.1 % (vsum (vsub deck cards)).toNat : ℕ) : ℤ) <
          vsum (vsub deck cards) := by
        have h1 : 0 < (vsum (vsub deck cards)).toNat := by omega
        have := Nat.mod_lt o.next.1 h1
        omega
      have hpick := pickIdx_lt (vsub deck cards)
        (o.next.1 % (vsum (vsub deck cards)).toNat) hmod
      rw [hwlen] at hpick
      have hclen : (vadd cards (oneHot (pickIdx (vsub deck cards)
          (o.next.1 % (vsum (vsub deck cards)).toNat)) S)).length = S := by
        simp [vadd, hc, oneHot]
      have hcsum : vsum (vadd cards (oneHot (pickIdx (vsub deck cards)
          (o.next.1 % (vsum (vsub deck cards)).toNat)) S)) = vsum cards + 1 := by
        rw [vsum_vadd _ _ (by simp [hc, oneHot]), vsum_oneHot S _ hpick]
      obtain ⟨r, hr⟩ := ih (vadd cards (oneHot (pickIdx (vsub deck cards)
          (o.next.1 % (vsum (vsub deck cards)).toNat)) S)) o.next.2 hclen
        (by rw [hcsum]; push_cast at hle ⊢; omega)
      refine ⟨r, ?_⟩
      unfold drawLoop
      rw [if_neg hpos]
      exact hr

/-- Helper: `random_card_draw` always succeeds on a state whose deck
vector has species length: `n_to_draw` is clamped by `sum(deck)`, so every
sampling step has a strictly positive denominator. -/
theorem random_card_draw_ok (g : Game) (o : Orc)
    (hd : g.deck.length = g.n_species) : ∃ r, g.random_card_draw o = .ok r := by
  have hloop : ∃ r, drawLoop g.n_species g.deck
      ((min (g.max_n_hand - vsum (aGet g.hands g.whose_turn)) (vsum g.deck)).toNat)
      (zerosV g.n_species) o = .ok r := by
    rcases hk : (min (g.max_n_hand - vsum (aGet g.hands g.whose_turn))
        (vsum g.deck)).toNat with _ | j
    · exact ⟨_, rfl⟩
    · have hle : ((j + 1 : ℕ) : ℤ) ≤ vsum g.deck - vsum (zerosV g.n_species) := by
        have hz : vsum (zerosV g.n_species) = 0 := by simp [zerosV, vsum]
        rw [hz]
        omega
      exact drawLoop_ok g.n_species g.deck hd (j + 1) (zerosV g.n_species) o
        (by simp [zerosV]) hle
  obtain ⟨r, hr⟩ := hloop
  exact ⟨_, by unfold Game.random_card_draw; rw [hr]; rfl⟩

/-- Claim C8: whenever the on-turn player's hand size is within the hand
capacity (and the deck vector is well-formed), every sampling step inside
`random_card_draw` has a strictly positive denominator, so the draw always
succeeds — the division-by-zero situation is unreachable. -/
theorem c8_draw_never_divides_by_zero (g : Game) (o : Orc)
    (hd : g.deck.length = g.n_species)
    (hhand : vsum (aGet g.hands g.whose_turn) ≤ g.max_n_hand) :
    ∃ r, g.random_card_draw o = .ok r :=
  random_card_draw_ok g o hd

/-- Claim C8 witness: on the example root state the draw succeeds. -/
theorem c8_witness :
    exampleRoot.deck.length = exampleRoot.n_species ∧
    vsum (aGet exampleRoot.hands exampleRoot.whose_turn) ≤ exampleRoot.max_n_hand ∧
    ∃ r, exampleRoot.random_card_draw ⟨[]⟩ = .ok r :=
  ⟨by decide, by decide,
   c8_draw_never_divides_by_zero exampleRoot ⟨[]⟩ (by decide) (by decide)⟩

/-- Helper: no execution of the sampling loop produces the spec's
`ExhaustedDeckError`; the source never raises one. -/
theorem drawLoop_ne_exhausted (S : ℕ) (deck : List ℤ) :
    ∀ (k : ℕ) (cards : List ℤ) (o : Orc),
      drawLoop S deck k cards o ≠ .error .exhaustedDeck := by
  intro k
  induction k with
  | zero => intro cards o; simp [drawLoop]
  | succ k ih =>
      intro cards o
      unfold drawLoop
      by_cases h : vsum (vsub deck cards) ≤ 0
      · rw [if_pos h]
        simp
      · rw [if_neg h]
        exact ih _ _

/-- Claim C7 (amended): `toDraw` is clamped by `sum(deck)`, so (a) the
draw always succeeds on a well-formed deck — the remaining pool is never
depleted while cards are still to be drawn; (b) a sampling step attempted
against a depleted pool would yield the division-induced
invalid-probability failure; and (c) no execution of the sampling loop
ever produces an `ExhaustedDeckError` — the source defines no such
error. -/
theorem c7_amended_clamped_draw :
    (∀ (g : Game) (o : Orc), g.deck.length = g.n_species →
        ∃ r, g.random_card_draw o = .ok r) ∧
    (∀ (S : ℕ) (deck cards : List ℤ) (k : ℕ) (o : Orc),
        vsum (vsub deck cards) ≤ 0 →
        drawLoop S deck (k + 1) cards o = .error .invalidProbability) ∧
    (∀ (S : ℕ) (deck cards : List ℤ) (k : ℕ) (o : Orc),
        drawLoop S deck k cards o ≠ .error .exhaustedDeck) := by
  exact ⟨fun g o hd => random_card_draw_ok g o hd,
         fun S deck cards k o h => by simp [drawLoop, if_pos h],
         fun S deck cards k o => drawLoop_ne_exhausted S deck k cards o⟩

/-- Claim C7 witness: parts of the amended claim at concrete inputs — the
example root's draw succeeds, a depleted-pool step fails with the
invalid-probability error, and a concrete loop run is no
`ExhaustedDeckError`. -/
theorem c7_amended_witness :
    (∃ r, exampleRoot.random_card_draw ⟨[]⟩ = .ok r) ∧
    drawLoop 2 [0, 0] 1 [0, 0] ⟨[]⟩ = .error .invalidProbability ∧
    drawLoop 1 [5] 1 [0] ⟨[]⟩ ≠ .error .exhaustedDeck :=
  ⟨c7_amended_clamped_draw.1 exampleRoot ⟨[]⟩ (by decide),
   c7_amended_clamped_draw.2.1 2 [0, 0] [0, 0] 0 ⟨[]⟩ (by decide),
   c7_amended_clamped_draw.2.2 1 [5] [0] 1 ⟨[]⟩⟩

/-- Helper: `find?` with a predicate holding at exactly one value answers
that value whenever it is in the list. -/
theorem find?_eq_some_of_unique {p : ℕ → Bool} {a : ℕ}
    (hp : ∀ b, p b = true ↔ b = a) :
    ∀ l : List ℕ, a ∈ l → l.find? p = some a := by
  intro l
  induction l with
  | nil => intro h; simp at h
  | cons x xs ih =>
      intro hmem
      by_cases hx : p x = true
      · have hxa : x = a := (hp x).mp hx
        rw [List.find?_cons_of_pos _ hx, hxa]
      · have hxa : x ≠ a := fun he => hx ((hp x).mpr he)
        have hxs : a ∈ xs := by
          rcases List.mem_cons.mp hmem with h | h
          · exact absurd h.symm hxa
          · exact h
        rw [List.find?_cons_of_neg _ (by simpa using hx)]
        exact ih hxs

/-- Helper: entries of the single-species card vector `k · oneHot a S`. -/
theorem smulV_oneHot_getD (k : ℤ) (a S i : ℕ) :
    (smulV k (oneHot a S)).getD i 0 =
      if i < S then (if i = a then k else 0) else 0 := by
  unfold smulV oneHot
  rw [List.map_map]
  by_cases hi : i < S
  · rw [List.getD_eq_getElem?_getD, List.getElem?_eq_getElem (by simpa using hi)]
    simp only [List.getElem_map, List.getElem_range, Option.getD_some, Function.comp]
    rw [if_pos hi]
    split <;> ring
  · rw [List.getD_eq_getElem?_getD, List.getElem?_eq_none (by simpa using Nat.le_of_not_lt hi)]
    rw [if_neg hi]
    rfl

/-- Helper: filtering `range L` by `< a` truncates it to `range a`. -/
theorem filter_lt_range (L a : ℕ) (h : a ≤ L) :
    (List.range L).filter (fun i => decide (i < a)) = List.range a := by
  have hL : L = a + (L - a) := by omega
  rw [hL, List.range_add, List.filter_append]
  have h1 : (List.range a).filter (fun i => decide (i < a)) = List.range a :=
    List.filter_eq_self.mpr (fun x hx => by
      simpa using List.mem_range.mp hx)
  have h2 : ((List.range (L - a)).map (a + ·)).filter (fun i => decide (i < a)) = [] :=
    List.filter_eq_nil_iff.mpr (fun x hx => by
      rcases List.mem_map.mp hx with ⟨j, _, hxe⟩
      simp only [← hxe, decide_eq_true_eq]
      omega)
  rw [h1, h2, List.append_nil]

/-- Helper: the nonzero field indices below `a`, in the order the code
computes them, coincide with the spec-side qualifying list. -/
theorem nonzero_filter_eq (field : List ℤ) (a : ℕ) (h : a ≤ field.length) :
    (Game.nonzeroIdxs field).filter (fun idx => decide (idx < a)) =
      (List.range a).filter (fun f => decide (field.getD f 0 ≠ 0)) := by
  unfold Game.nonzeroIdxs
  rw [List.filter_filter]
  rw [List.filter_congr (fun x _ => Bool.and_comm
    (decide (x < a)) (decide (field.getD x 0 ≠ 0)))]
  rw [← List.filter_filter, filter_lt_range _ _ h]

/-- Helper: the running maximum over an ascending list, seeded with `z`,
is `z` joined with the last (largest) element. -/
theorem foldl_max_sorted : ∀ l : List ℕ, l.Sorted (· ≤ ·) → ∀ z : ℤ,
    l.foldl (fun (m : ℤ) (i : ℕ) => max m (i : ℤ)) z =
      (match l.getLast? with
       | none => z
       | some m => max z (m : ℤ)) := by
  intro l
  induction l with
  | nil => intro _ z; rfl
  | cons x xs ih =>
      intro hs z
      rcases List.sorted_cons.mp hs with ⟨hx, hxs⟩
      simp only [List.foldl_cons]
      rw [ih hxs (max z x)]
      cases hl : xs.getLast? with
      | none =>
          have hnil : xs = [] := by
            cases xs with
            | nil => rfl
            | cons y ys => simp [List.getLast?_eq_getLast] at hl
          subst hnil
          rfl
      | some m =>
          have hm : m ∈ xs := List.mem_of_getLast?_eq_some hl
          have hxm : (x : ℤ) ≤ (m : ℤ) := by exact_mod_cast hx m hm
          have hcons : (x :: xs).getLast? = some m := by
            cases xs with
            | nil => simp at hl
            | cons y ys => rw [List.getLast?_cons_cons, hl]
          rw [hcons]
          simp only []
          rw [max_assoc, max_eq_right hxm]

/-- Helper: the running maximum is either its seed or a list member. -/
theorem foldl_max_mem : ∀ (l : List ℕ) (z : ℤ),
    l.foldl (fun (m : ℤ) (i : ℕ) => max m (i : ℤ)) z = z ∨
      ∃ i ∈ l, l.foldl (fun (m : ℤ) (i : ℕ) => max m (i : ℤ)) z = (i : ℤ) := by
  intro l
  induction l with
  | nil => intro z; exact Or.inl rfl
  | cons x xs ih =>
      intro z
      simp only [List.foldl_cons]
      rcases ih (max z x) with h | ⟨i, hi, hieq⟩
      · rcases max_choice z (x : ℤ) with hz | hx
        · exact Or.inl (h.trans hz)
        · exact Or.inr ⟨x, List.mem_cons_self x xs, h.trans hx⟩
      · exact Or.inr ⟨i, List.mem_cons_of_mem _ hi, hieq⟩

/-- Claim C2: `apply_event` on an action event whose cards are `k ≥ 1`
copies of one species `a` moves the cards from the actor's hand to the
field; then, exactly when `field[a] >= 3`, chases the species
`specChaseTarget` describes — the largest index `f < a` with a nonzero
field count, or `S-1` when `a = 0` — adding `field[f]` to the
current-turn player's score and zeroing `field[f]`; when no species
qualifies nothing beyond the hand-to-field move changes. -/
theorem c2_action_chase_matches_spec (g : Game) (who : String) (a : ℕ) (k : ℤ)
    (ha : a < g.n_species) (hk : 1 ≤ k)
    (hflen : g.field.length = g.n_species) :
    g.apply_event { kind := .action, who := who, cards := smulV k (oneHot a g.n_species) } =
      specApplyAction g who a (smulV k (oneHot a g.n_species)) := by
  have hclen : (smulV k (oneHot a g.n_species)).length = g.n_species := by
    simp [smulV, oneHot]
  have hfind : (List.range (smulV k (oneHot a g.n_species)).length).find?
      (fun i => decide ((smulV k (oneHot a g.n_species)).getD i 0 ≠ 0)) = some a := by
    apply find?_eq_some_of_unique
    · intro b
      rw [smulV_oneHot_getD]
      constructor
      · intro hb
        by_contra hne
        rcases Nat.lt_or_ge b g.n_species with h1 | h1
        · simp [h1, hne] at hb
        · simp [Nat.not_lt.mpr h1] at hb
      · intro hb
        subst hb
        simp [ha]
        omega
    · rw [hclen]
      exact List.mem_range.mpr ha
  have hg1len : (vadd g.field (smulV k (oneHot a g.n_species))).length = g.n_species := by
    simp [vadd, hflen, hclen]
  unfold Game.apply_event specApplyAction moveToField
  simp only [hfind]
  by_cases hthree : 3 ≤ (vadd g.field (smulV k (oneHot a g.n_species))).getD a 0
  · rw [if_pos hthree, if_pos hthree]
    by_cases ha0 : a = 0
    · subst ha0
      have hS : 1 ≤ g.n_species := by omega
      rw [if_pos rfl]
      unfold specChaseTarget
      rw [if_pos rfl]
      have hge : (0 : ℤ) ≤ (g.n_species : ℤ) - 1 := by omega
      rw [if_pos hge]
      have htn : ((g.n_species : ℤ) - 1).toNat = g.n_species - 1 := by omega
      rw [htn]
    · rw [if_neg ha0]
      unfold specChaseTarget
      rw [if_neg ha0]
      rw [nonzero_filter_eq _ _ (by rw [hg1len]; omega)]
      rw [foldl_max_sorted _ ((List.pairwise_le_range a).filter _) (-1)]
      cases hlast : ((List.range a).filter
          (fun f => decide ((vadd g.field (smulV k (oneHot a g.n_species))).getD f 0 ≠ 0))).getLast? with
      | none =>
          simp only []
          rw [if_neg (by omega)]
      | some m =>
          simp only []
          have hmax : max (-1 : ℤ) (m : ℤ) = (m : ℤ) := max_eq_right (by omega)
          rw [hmax]
          rw [if_pos (show (0 : ℤ) ≤ (m : ℤ) by omega)]
          rw [Int.toNat_natCast]
  · rw [if_neg hthree, if_neg hthree]

/-- Claim C2 witness: playing one card of species 1 onto the field `[1,2]`
reaches three of species 1 and chases species 0, exactly as the spec-side
description computes. -/
theorem c2_witness :
    1 < chaseRoot.n_species ∧ (1 : ℤ) ≤ 1 ∧
    chaseRoot.field.length = chaseRoot.n_species ∧
    chaseRoot.apply_event
        { kind := .action, who := "player0",
          cards := smulV 1 (oneHot 1 chaseRoot.n_species) } =
      specApplyAction chaseRoot "player0" 1 (smulV 1 (oneHot 1 chaseRoot.n_species)) :=
  ⟨by decide, by decide, by decide,
   c2_action_chase_matches_spec chaseRoot "player0" 1 1 (by decide) (by decide) (by decide)⟩

/-- Helper: unfolding the hand-dictionary lookup one entry at a time. -/
theorem aGet_cons (kv : String × List ℤ) (rest : List (String × List ℤ)) (k : String) :
    aGet (kv :: rest) k = if kv.1 = k then kv.2 else aGet rest k := by
  unfold aGet
  by_cases h : kv.1 = k
  · rw [List.find?_cons_of_pos _ (by simpa using h), if_pos h]
  · rw [List.find?_cons_of_neg _ (by simpa using h), if_neg h]

/-- Helper: unfolding the score-dictionary lookup one entry at a time. -/
theorem sGet_cons (kv : String × ℤ) (rest : List (String × ℤ)) (k : String) :
    sGet (kv :: rest) k = if kv.1 = k then kv.2 else sGet rest k := by
  unfold sGet
  by_cases h : kv.1 = k
  · rw [List.find?_cons_of_pos _ (by simpa using h), if_pos h]
  · rw [List.find?_cons_of_neg _ (by simpa using h), if_neg h]

/-- Helper: a hand-dictionary update leaves the key list unchanged. -/
theorem aSet_keys (l : List (String × List ℤ)) (k : String) (v : List ℤ) :
    (aSet l k v).map Prod.fst = l.map Prod.fst := by
  induction l with
  | nil => rfl
  | cons kv rest ih =>
      by_cases h : kv.1 = k <;> simp [aSet, h] <;> simpa [aSet] using ih

/-- Helper: a score-dictionary update leaves the key list unchanged. -/
theorem sSet_keys (l : List (String × ℤ)) (k : String) (v : ℤ) :
    (sSet l k v).map Prod.fst = l.map Prod.fst := by
  induction l with
  | nil => rfl
  | cons kv rest ih =>
      by_cases h : kv.1 = k <;> simp [sSet, h] <;> simpa [sSet] using ih

/-- Helper: updating an absent key is a no-op on the hand dictionary. -/
theorem aSet_of_not_mem (l : List (String × List ℤ)) (k : String) (v : List ℤ)
    (h : k ∉ l.map Prod.fst) : aSet l k v = l := by
  induction l with
  | nil => rfl
  | cons kv rest ih =>
      simp only [List.map_cons, List.mem_cons] at h
      push_neg at h
      simp only [aSet, List.map_cons]
      rw [if_neg (fun he => h.1 he.symm)]
      have := ih h.2
      simp only [aSet] at this
      rw [this]

/-- Helper: updating an absent key is a no-op on the score dictionary. -/
theorem sSet_of_not_mem (l : List (String × ℤ)) (k : String) (v : ℤ)
    (h : k ∉ l.map Prod.fst) : sSet l k v = l := by
  induction l with
  | nil => rfl
  | cons kv rest ih =>
      simp only [List.map_cons, List.mem_cons] at h
      push_neg at h
      simp only [sSet, List.map_cons]
      rw [if_neg (fun he => h.1 he.symm)]
      have := ih h.2
      simp only [sSet] at this
      rw [this]

/-- Helper: how a present-key update moves the hand-dictionary total. -/
theorem handsTotal_aSet (l : List (String × List ℤ)) (k : String) (v : List ℤ)
    (hmem : k ∈ l.map Prod.fst) (hnd : (l.map Prod.fst).Nodup) :
    handsTotal (aSet l k v) = handsTotal l - vsum (aGet l k) + vsum v := by
  induction l with
  | nil => simp at hmem
  | cons kv rest ih =>
      simp only [List.map_cons, List.nodup_cons] at hnd
      by_cases h : kv.1 = k
      · have hnotin : k ∉ rest.map Prod.fst := h ▸ hnd.1
        simp only [aSet, List.map_cons, if_pos h]
        have hrest : List.map (fun kv => if kv.1 = k then (kv.1, v) else kv) rest = rest := by
          have := aSet_of_not_mem rest k v hnotin
          simpa [aSet] using this
        rw [hrest]
        rw [aGet_cons, if_pos h]
        simp [handsTotal]
        ring
      · simp only [aSet, List.map_cons, if_neg h]
        rw [aGet_cons, if_neg h]
        have hmem' : k ∈ rest.map Prod.fst := by
          rcases (by simpa using hmem : k = kv.1 ∨ ∃ x, (k, x) ∈ rest) with h1 | ⟨x, hx⟩
          · exact absurd h1.symm h
          · exact List.mem_map.mpr ⟨(k, x), hx, rfl⟩
        have := ih hmem' hnd.2
        simp only [aSet] at this
        simp only [handsTotal, List.map_cons, List.sum_cons] at *
        rw [this]
        ring

/-- Helper: how a present-key update moves the score total. -/
theorem scoreTotal_sSet (l : List (String × ℤ)) (k : String) (v : ℤ)
    (hmem : k ∈ l.map Prod.fst) (hnd : (l.map Prod.fst).Nodup) :
    scoreTotal (sSet l k v) = scoreTotal l - sGet l k + v := by
  induction l with
  | nil => simp at hmem
  | cons kv rest ih =>
      simp only [List.map_cons, List.nodup_cons] at hnd
      by_cases h : kv.1 = k
      · have hnotin : k ∉ rest.map Prod.fst := h ▸ hnd.1
        simp only [sSet, List.map_cons, if_pos h]
        have hrest : List.map (fun kv => if kv.1 = k then (kv.1, v) else kv) rest = rest := by
          have := sSet_of_not_mem rest k v hnotin
          simpa [sSet] using this
        rw [hrest]
        rw [sGet_cons, if_pos h]
        simp [scoreTotal]
        ring
      · simp only [sSet, List.map_cons, if_neg h]
        rw [sGet_cons, if_neg h]
        have hmem' : k ∈ rest.map Prod.fst := by
          rcases (by simpa using hmem : k = kv.1 ∨ ∃ x, (k, x) ∈ rest) with h1 | ⟨x, hx⟩
          · exact absurd h1.symm h
          · exact List.mem_map.mpr ⟨(k, x), hx, rfl⟩
        have := ih hmem' hnd.2
        simp only [sSet] at this
        simp only [scoreTotal, List.map_cons, List.sum_cons] at *
        rw [this]
        ring

/-- Helper: a present key's hand is an entry of the dictionary. -/
theorem aGet_mem (l : List (String × List ℤ)) (k : String)
    (hmem : k ∈ l.map Prod.fst) : (k, aGet l k) ∈ l := by
  induction l with
  | nil => simp at hmem
  | cons kv rest ih =>
      rw [aGet_cons]
      by_cases h : kv.1 = k
      · rw [if_pos h]
        rw [← h]
        exact List.mem_cons_self kv rest
      · rw [if_neg h]
        have hmem' : k ∈ rest.map Prod.fst := by
          rcases (by simpa using hmem : k = kv.1 ∨ ∃ x, (k, x) ∈ rest) with h1 | ⟨x, hx⟩
          · exact absurd h1.symm h
          · exact List.mem_map.mpr ⟨(k, x), hx, rfl⟩
        exact List.mem_cons_of_mem _ (ih hmem')

/-- Helper: how setting one entry moves a vector's sum. -/
theorem vsum_set (l : List ℤ) : ∀ (i : ℕ), i < l.length → ∀ x : ℤ,
    vsum (l.set i x) = vsum l - l.getD i 0 + x := by
  induction l with
  | nil => intro i h; simp at h
  | cons y ys ih =>
      intro i h x
      cases i with
      | zero =>
          simp [vsum, List.set]
          ring
      | succ j =>
          simp only [List.set, vsum, List.sum_cons, List.getD_cons_succ]
          have hj : j < ys.length := by simpa using h
          have := ih j hj x
          simp only [vsum] at this
          rw [this]
          ring

/-- Helper: a present key's hand has the common length. -/
theorem aGet_length (l : List (String × List ℤ)) (k : String) (S : ℕ)
    (hlen : ∀ kv ∈ l, kv.2.length = S) (hmem : k ∈ l.map Prod.fst) :
    (aGet l k).length = S :=
  hlen _ (aGet_mem l k hmem)

/-- Helper: entries of an updated hand dictionary are old entries or carry
the new value. -/
theorem aSet_mem (l : List (String × List ℤ)) (k : String) (v : List ℤ) :
    ∀ kv' ∈ aSet l k v, kv' ∈ l ∨ kv'.2 = v := by
  intro kv' h
  rcases List.mem_map.mp h with ⟨kv0, h0, he⟩
  by_cases hk : kv0.1 = k
  · rw [if_pos hk] at he
    exact Or.inr (by rw [← he])
  · rw [if_neg hk] at he
    exact Or.inl (he ▸ h0)

/-- Helper: the player on turn is one of the players. -/
theorem whose_turn_mem (g : Game) (h : g.whose_turn_ < g.player_names.length) :
    g.whose_turn ∈ g.player_names := by
  unfold Game.whose_turn
  rw [List.getD_eq_getElem?_getD, List.getElem?_eq_getElem h]
  exact List.getElem_mem h

/-- Helper: the deck-draw update conserves the total card count and
preserves well-formedness. -/
theorem wf_draw (g : Game) (who : String) (cards : List ℤ) (hg : GameWF g)
    (hc : cards.length = g.n_species) (hw : who ∈ g.player_names) :
    totalCards ({ g with deck := vsub g.deck cards, hands := aSet g.hands who (vadd (aGet g.hands who) cards) }) = totalCards g ∧
    GameWF ({ g with deck := vsub g.deck cards, hands := aSet g.hands who (vadd (aGet g.hands who) cards) }) := by
  have hkeys : who ∈ g.hands.map Prod.fst := hg.hands_keys ▸ hw
  have hnd : (g.hands.map Prod.fst).Nodup := hg.hands_keys ▸ hg.names_nodup
  have hga : (aGet g.hands who).length = g.n_species :=
    aGet_length _ _ _ hg.hands_len hkeys
  constructor
  · unfold totalCards
    simp only
    rw [vsum_vsub _ _ (by rw [hg.deck_len, hc]),
        handsTotal_aSet _ _ _ hkeys hnd,
        vsum_vadd _ _ (by rw [hga, hc])]
    ring
  · refine ⟨?_, hg.field_len, ?_, ?_, hg.sb_keys, hg.names_nodup, hg.turn_lt⟩
    · simp [vsub, hg.deck_len, hc]
    · intro kv hkv
      rcases aSet_mem _ _ _ kv hkv with hin | hval
      · exact hg.hands_len kv hin
      · rw [hval]
        simp [vadd, hga, hc]
    · rw [aSet_keys]
      exact hg.hands_keys

/-- Helper: the hand-to-field move conserves the total card count and
preserves well-formedness. -/
theorem wf_move (g : Game) (who : String) (cards : List ℤ) (hg : GameWF g)
    (hc : cards.length = g.n_species) (hw : who ∈ g.player_names) :
    totalCards (moveToField g who cards) = totalCards g ∧
    GameWF (moveToField g who cards) := by
  have hkeys : who ∈ g.hands.map Prod.fst := hg.hands_keys ▸ hw
  have hnd : (g.hands.map Prod.fst).Nodup := hg.hands_keys ▸ hg.names_nodup
  have hga : (aGet g.hands who).length = g.n_species :=
    aGet_length _ _ _ hg.hands_len hkeys
  constructor
  · unfold totalCards moveToField
    simp only
    rw [vsum_vadd _ _ (by rw [hg.field_len, hc]),
        handsTotal_aSet _ _ _ hkeys hnd,
        vsum_vsub _ _ (by rw [hga, hc])]
    ring
  · refine ⟨hg.deck_len, ?_, ?_, ?_, hg.sb_keys, hg.names_nodup, hg.turn_lt⟩
    · simp [moveToField, vadd, hg.field_len, hc]
    · intro kv hkv
      rcases aSet_mem _ _ _ kv hkv with hin | hval
      · exact hg.hands_len kv hin
      · rw [hval]
        show (vsub (aGet g.hands who) cards).length = (moveToField g who cards).n_species
        simp [moveToField, vsub, hga, hc]
    · show (aSet g.hands who _).map Prod.fst = _
      rw [aSet_keys]
      exact hg.hands_keys

/-- Helper: the chase-effect update — score the chased field entry and
zero it — conserves the total card count and preserves well-formedness. -/
theorem wf_chase (g1 : Game) (f : ℕ) (hg : GameWF g1) (hf : f < g1.field.length) :
    totalCards ({ g1 with scoreboard := sSet g1.scoreboard g1.whose_turn (sGet g1.scoreboard g1.whose_turn + g1.field.getD f 0), field := g1.field.set f 0 }) = totalCards g1 ∧
    GameWF ({ g1 with scoreboard := sSet g1.scoreboard g1.whose_turn (sGet g1.scoreboard g1.whose_turn + g1.field.getD f 0), field := g1.field.set f 0 }) := by
  have hmem : g1.whose_turn ∈ g1.scoreboard.map Prod.fst :=
    hg.sb_keys ▸ whose_turn_mem g1 hg.turn_lt
  have hnd : (g1.scoreboard.map Prod.fst).Nodup := hg.sb_keys ▸ hg.names_nodup
  constructor
  · unfold totalCards
    simp only
    rw [vsum_set _ _ hf, scoreTotal_sSet _ _ _ hmem hnd]
    ring
  · refine ⟨hg.deck_len, ?_, hg.hands_len, hg.hands_keys, ?_, hg.names_nodup, hg.turn_lt⟩
    · simp [hg.field_len]
    · rw [sSet_keys]
      exact hg.sb_keys

/-- Helper: a single applied event conserves the total card count and
preserves well-formedness, species count and player list. -/
theorem apply_event_total_wf (g : Game) (e : Event) (hg : GameWF g)
    (hc : e.cards.length = g.n_species) (hw : e.who ∈ g.player_names) :
    totalCards (g.apply_event e) = totalCards g ∧ GameWF (g.apply_event e) ∧
    (g.apply_event e).n_species = g.n_species ∧
    (g.apply_event e).player_names = g.player_names := by
  rcases e with ⟨kind, who, cards⟩
  simp only at hc hw
  cases kind with
  | deck_draw =>
      have h := wf_draw g who cards hg hc hw
      exact ⟨h.1, h.2, rfl, rfl⟩
  | action =>
      have hmv := wf_move g who cards hg hc hw
      have hlen1 : (vadd g.field cards).length = g.n_species := by
        simp [vadd, hg.field_len, hc]
      unfold Game.apply_event
      simp only []
      cases hfind : (List.range cards.length).find?
          (fun i => decide (cards.getD i 0 ≠ 0)) with
      | none => exact ⟨hmv.1, hmv.2, rfl, rfl⟩
      | some a =>
          have ha : a < g.n_species :=
            hc ▸ List.mem_range.mp (List.mem_of_find?_eq_some hfind)
          simp only []
          by_cases h3 : 3 ≤ (vadd g.field cards).getD a 0
          · rw [if_pos h3]
            by_cases ha0 : a = 0
            · rw [if_pos ha0]
              by_cases hge : (0 : ℤ) ≤ (g.n_species : ℤ) - 1
              · rw [if_pos hge]
                have hfb : ((g.n_species : ℤ) - 1).toNat < (vadd g.field cards).length := by
                  rw [hlen1]
                  omega
                have hch := wf_chase (moveToField g who cards)
                  ((g.n_species : ℤ) - 1).toNat hmv.2 hfb
                exact ⟨hch.1.trans hmv.1, hch.2, rfl, rfl⟩
              · rw [if_neg hge]
                exact ⟨hmv.1, hmv.2, rfl, rfl⟩
            · rw [if_neg ha0]
              rcases foldl_max_mem ((Game.nonzeroIdxs (vadd g.field cards)).filter
                  (fun idx => idx < a)) (-1) with heq | ⟨i, hi, heq⟩
              · rw [heq]
                rw [if_neg (by omega)]
                exact ⟨hmv.1, hmv.2, rfl, rfl⟩
              · rw [heq]
                rw [if_pos (show (0 : ℤ) ≤ (i : ℤ) by omega)]
                have hia : i < a := by
                  have := List.of_mem_filter hi
                  simpa using this
                have hfb : ((i : ℤ)).toNat < (vadd g.field cards).length := by
                  rw [Int.toNat_natCast, hlen1]
                  omega
                have hch := wf_chase (moveToField g who cards) ((i : ℤ)).toNat hmv.2 hfb
                rw [Int.toNat_natCast] at hch
                rw [Int.toNat_natCast]
                exact ⟨hch.1.trans hmv.1, hch.2, rfl, rfl⟩
          · rw [if_neg h3]
            exact ⟨hmv.1, hmv.2, rfl, rfl⟩

/-- Claim C4: every well-formed event application — deck draw or action,
chase effect included — conserves
`sum(deck) + sum(field) + Σ sum(hand_p) + Σ score_p`; hence along any
event sequence the quantity equals the constant computed from the initial
root state. -/
theorem c4_card_conservation (g : Game) (es : List Event) (hg : GameWF g)
    (hes : ∀ e ∈ es, e.cards.length = g.n_species ∧ e.who ∈ g.player_names) :
    totalCards (es.foldl Game.apply_event g) = totalCards g := by
  induction es generalizing g with
  | nil => rfl
  | cons e rest ih =>
      have he := hes e (List.mem_cons_self e rest)
      obtain ⟨ht, hwf, hns, hpn⟩ := apply_event_total_wf g e hg he.1 he.2
      simp only [List.foldl_cons]
      rw [ih (g.apply_event e) hwf (fun e' he' => by
        have := hes e' (List.mem_cons_of_mem _ he')
        rw [hns, hpn]
        exact this)]
      exact ht

/-- Claim C4 witness: a two-event sequence on the example root — a draw
of one card of each species followed by playing a card of species 0 —
conserves the total. -/
theorem c4_witness :
    GameWF exampleRoot ∧
    (∀ e ∈ [({ kind := .deck_draw, who := "player0", cards := [1, 1] } : Event),
            { kind := .action, who := "player0", cards := [1, 0] }],
        e.cards.length = exampleRoot.n_species ∧ e.who ∈ exampleRoot.player_names) ∧
    totalCards ([({ kind := .deck_draw, who := "player0", cards := [1, 1] } : Event),
        { kind := .action, who := "player0", cards := [1, 0] }].foldl
          Game.apply_event exampleRoot) = totalCards exampleRoot :=
  ⟨⟨rfl, rfl, by decide, rfl, rfl, by decide, by decide⟩,
   by decide,
   c4_card_conservation exampleRoot _
     ⟨rfl, rfl, by decide, rfl, rfl, by decide, by decide⟩ (by decide)⟩

end Kariba
